import Mathlib

/-!
Verification of the llama probe pipeline (collector core).

Shallow embedding of the Go sources: pure functions become Lean functions,
machine integers (uint64, byte, int) become natural numbers with explicit
range hypotheses where overflow could matter, Go float64 values are modelled
by exact rationals (`ℚ`), with `Option ℚ` where a non-finite value (NaN)
can arise, and fallible operations return `Option`.
-/

namespace Llama

/-- PathDist (port.go) — path distinguisher: the tuple identifying a directed
flow.  `net.IP` values are modelled by their string form. -/
structure PathDist where
  SrcIP : String
  SrcPort : ℕ
  DstIP : String
  DstPort : ℕ
  Proto : String
deriving DecidableEq, Repr

/-- Probe (port.go) — a single UDP probe.  `CSent`/`CRcvd` are uint64
wall-clock nanosecond stamps (0 for `CRcvd` means never received). -/
structure Probe where
  Pd : PathDist
  CSent : ℕ
  CRcvd : ℕ
  Tos : ℕ
deriving DecidableEq, Repr

/-- Result (resulthandler.go) — characteristics of a single completed Probe. -/
structure Result where
  Pd : PathDist
  RTT : ℕ
  Done : ℕ
  Lost : Bool
deriving DecidableEq, Repr

/-- RTT (resulthandler.go:76-93) — computes the round trip time for a probe
and updates the Result.  Returns the updated result together with the error
value the Go function returns (`none` for nil).  uint64 subtraction
`CRcvd - CSent` is taken on the branch where `CSent ≤ CRcvd`, so natural
subtraction coincides with the Go computation. -/
def RTT (probe : Probe) (result : Result) : Result × Option String :=
  if probe.CRcvd = 0 then
    ({ result with Lost := true }, none)
  else if probe.CRcvd < probe.CSent then
    ({ result with Lost := true },
     some "Probe send/recv times appear to be out of order")
  else
    ({ result with RTT := probe.CRcvd - probe.CSent }, none)

/-- Process (resulthandler.go:64-73) — takes in a probe and returns a Result.
The Go code passes the error from `RTT` to `HandleMinorError` (which logs it);
we surface that error as the second component so the reporting behaviour is
visible to theorems. -/
def Process (probe : Probe) : Result × Option String :=
  let result : Result := { Pd := probe.Pd, RTT := 0, Done := probe.CRcvd, Lost := false }
  RTT probe result

/-- C3: For every Probe, the RTT conversion yields: if `CRcvd = 0` then
`rtt = 0`, `lost = true`, no error; if `CRcvd ≠ 0` and `CSent > CRcvd` then
`rtt = 0`, `lost = true`, and a minor error is reported; otherwise
`rtt = CRcvd - CSent`, `lost = false`, no error.  An error is reported in
exactly the clock-inversion case. -/
theorem process_rtt_cases (probe : Probe) :
    (probe.CRcvd = 0 →
      (Process probe).1.RTT = 0 ∧ (Process probe).1.Lost = true ∧
      (Process probe).2 = none) ∧
    (probe.CRcvd ≠ 0 → probe.CRcvd < probe.CSent →
      (Process probe).1.RTT = 0 ∧ (Process probe).1.Lost = true ∧
      (Process probe).2.isSome = true) ∧
    (probe.CRcvd ≠ 0 → probe.CSent ≤ probe.CRcvd →
      (Process probe).1.RTT = probe.CRcvd - probe.CSent ∧
      (Process probe).1.Lost = false ∧ (Process probe).2 = none) ∧
    ((Process probe).2.isSome = true ↔
      probe.CRcvd ≠ 0 ∧ probe.CRcvd < probe.CSent) := by
  unfold Process RTT
  rcases Nat.eq_zero_or_pos probe.CRcvd with h0 | h0
  · simp [h0]
  · rcases lt_or_le probe.CRcvd probe.CSent with hlt | hle
    · simp [Nat.pos_iff_ne_zero.mp h0, hlt]
    · simp [Nat.pos_iff_ne_zero.mp h0, Nat.not_lt.mpr hle, hle]

/-- Witness for C3 at the clock-inversion scenario S4:
`sent = 200000`, `recv = 100000` gives `rtt = 0`, `lost = true` and a
reported minor error. -/
theorem process_rtt_cases_witness :
    (Process ⟨⟨"", 0, "", 0, "udp"⟩, 200000, 100000, 0⟩).1.RTT = 0 ∧
    (Process ⟨⟨"", 0, "", 0, "udp"⟩, 200000, 100000, 0⟩).1.Lost = true ∧
    (Process ⟨⟨"", 0, "", 0, "udp"⟩, 200000, 100000, 0⟩).2.isSome = true :=
  (process_rtt_cases ⟨⟨"", 0, "", 0, "udp"⟩, 200000, 100000, 0⟩).2.1
    (by decide) (by decide)

/-- C10: For every Probe, the Result produced by `Process` has `Done` equal to
the probe's `CRcvd` field; in particular a probe that was never received
(`CRcvd = 0`) yields a Result with `Done = 0`. -/
theorem process_done_eq_crcvd (probe : Probe) :
    (Process probe).1.Done = probe.CRcvd ∧
    (probe.CRcvd = 0 → (Process probe).1.Done = 0) := by
  unfold Process RTT
  constructor
  · rcases Nat.eq_zero_or_pos probe.CRcvd with h0 | h0
    · simp [h0]
    · rcases lt_or_le probe.CRcvd probe.CSent with hlt | hlt
      · simp [Nat.pos_iff_ne_zero.mp h0, hlt]
      · simp [Nat.pos_iff_ne_zero.mp h0, Nat.not_lt.mpr hlt]
  · intro h
    simp [h]

/-- Witness for C10 at a never-received probe. -/
theorem process_done_eq_crcvd_witness :
    (Process ⟨⟨"", 0, "", 0, "udp"⟩, 100000, 0, 0⟩).1.Done = 0 :=
  (process_done_eq_crcvd ⟨⟨"", 0, "", 0, "udp"⟩, 100000, 0, 0⟩).2 rfl

/-- Summary (summarizer.go:12-21) — summarized results and statistics.
Go float64 fields are modelled by exact rationals; `Loss` is `Option ℚ`
because `CalcLoss` can perform a 0/0 float division, whose result (NaN)
has no rational counterpart and is modelled as `none`.  The `TS` field is
documented as no longer used and is omitted. -/
structure Summary where
  Pd : PathDist
  RTTAvg : ℚ
  RTTMin : ℚ
  RTTMax : ℚ
  Sent : ℕ
  Lost : ℕ
  Loss : Option ℚ
deriving DecidableEq, Repr

/-- Go float64 division.  A zero divisor yields a non-finite value
(NaN for 0/0, ±Inf otherwise), modelled as `none`; otherwise the exact
quotient. -/
def fdiv (a b : ℚ) : Option ℚ :=
  if b = 0 then none else some (a / b)

/-- NsToMs (summarizer.go:280-282) — converts nanoseconds to milliseconds. -/
def NsToMs (ns : ℚ) : ℚ :=
  ns / 1000000

/-- CalcCounts (summarizer.go:249-259) — sets the Sent and Lost counts on the
provided summary from the provided results. -/
def CalcCounts (results : List Result) (summary : Summary) : Summary :=
  { summary with
    Sent := results.length
    Lost := results.countP (fun r => r.Lost) }

/-- CalcLoss (summarizer.go:263-277) — computes the loss percentage from the
summary's Sent and Lost counts.  The Go code assigns `Loss = 0` inside the
`Sent == 0` branch but does not return there, and then unconditionally
recomputes `Loss = (Lost / Sent) * 100`; the model reproduces that control
flow exactly. -/
def CalcLoss (summary : Summary) : Summary :=
  let s := if summary.Sent = 0 then { summary with Loss := some 0 } else summary
  { s with Loss := (fdiv (s.Lost : ℚ) (s.Sent : ℚ)).map (fun q => q * 100) }

/-- math.MaxFloat64, exactly: (2^53 - 1) * 2^971. -/
def maxFloat64 : ℚ :=
  (2 ^ 53 - 1) * 2 ^ 971

/-- CalcRTT (summarizer.go:189-245) — computes RTTAvg, RTTMin, RTTMax (in ms)
for the summary from the non-lost results, leaving the fields untouched when
the result list is empty or every result was lost.  The min fold starts at
math.MaxFloat64, the max fold at 0, exactly as the source loops do. -/
def CalcRTT (results : List Result) (summary : Summary) : Summary :=
  if results.length = 0 then summary
  else
    let values := (results.filter (fun r => !r.Lost)).map (fun r => NsToMs (r.RTT : ℚ))
    if values.length = 0 then summary
    else
      let total := values.foldl (fun a v => a + v) 0
      let avg := total / (values.length : ℚ)
      let mn := values.foldl (fun m v => if v < m then v else m) maxFloat64
      let mx := values.foldl (fun m v => if m < v then v else m) 0
      { summary with RTTAvg := avg, RTTMin := mn, RTTMax := mx }

/-- summarizeSet (summarizer.go:108-123) — returns a Summary for a single set
of Results, all assumed to share the same PathDist.  The Go code indexes
`results[0]`, which would panic on an empty slice; that failure is modelled
as `none`.  The fresh `&Summary{Pd: pd}` has Go zero values in every other
field (0.0 floats, 0 ints), so `Loss` starts at `some 0`. -/
def summarizeSet (results : List Result) : Option Summary :=
  match results with
  | [] => none
  | r :: _ =>
    let summary : Summary :=
      { Pd := r.Pd, RTTAvg := 0, RTTMin := 0, RTTMax := 0,
        Sent := 0, Lost := 0, Loss := some 0 }
    let s1 := CalcCounts results summary
    let s2 := CalcLoss s1
    let s3 := CalcRTT results s2
    some s3

/-- C2 counterexample: `CalcLoss` on a summary with `Sent = 0` does not
leave `Loss = 0`: the branch assigns 0 but control falls through to the
unconditional recomputation `(Lost / Sent) * 100`, a 0/0 float division, so
the value is NaN (`none`), not 0 — exactly what the unit test
`TestCalcLoss` pins ("Loss should be NaN if none sent"). -/
theorem calcLoss_sent_zero_is_nan :
    (CalcLoss { Pd := ⟨"", 0, "", 0, "udp"⟩, RTTAvg := 0, RTTMin := 0,
                RTTMax := 0, Sent := 0, Lost := 0, Loss := some 0 }).Loss
      = none := by
  decide

/-- CalcRTT never touches the count or loss fields. -/
lemma calcRTT_preserves_counts (results : List Result) (s : Summary) :
    (CalcRTT results s).Sent = s.Sent ∧ (CalcRTT results s).Lost = s.Lost ∧
    (CalcRTT results s).Loss = s.Loss := by
  unfold CalcRTT
  split
  · exact ⟨rfl, rfl, rfl⟩
  · dsimp only
    split
    · exact ⟨rfl, rfl, rfl⟩
    · exact ⟨rfl, rfl, rfl⟩

/-- CalcLoss never touches the count fields. -/
lemma calcLoss_preserves_counts (s : Summary) :
    (CalcLoss s).Sent = s.Sent ∧ (CalcLoss s).Lost = s.Lost := by
  by_cases hz : s.Sent = 0 <;> simp [CalcLoss, hz]

/-- With a positive Sent count, CalcLoss computes the finite percentage. -/
lemma calcLoss_loss_of_sent_ne_zero (s : Summary) (hz : s.Sent ≠ 0) :
    (CalcLoss s).Loss = some ((s.Lost : ℚ) / (s.Sent : ℚ) * 100) := by
  have hq : ((s.Sent : ℚ)) ≠ 0 := Nat.cast_ne_zero.mpr hz
  simp [CalcLoss, hz, fdiv, hq]

/-- C2 (amended): every Summary produced by summarization comes from a
non-empty bucket, so its Sent count is positive and its Loss field is the
finite percentage `(Lost / Sent) * 100` — never NaN.  (The `Sent == 0`
branch of `CalcLoss` itself yields NaN, not 0; see the counterexample.) -/
theorem summarizeSet_loss_formula (results : List Result)
    (hne : results ≠ []) :
    ∃ s, summarizeSet results = some s ∧ 0 < s.Sent ∧
      s.Sent = results.length ∧
      s.Lost = results.countP (fun r => r.Lost) ∧
      s.Loss = some ((results.countP (fun r => r.Lost) : ℚ)
        / (results.length : ℚ) * 100) := by
  cases results with
  | nil => exact absurd rfl hne
  | cons r rest =>
    refine ⟨_, rfl, ?_, ?_, ?_, ?_⟩ <;>
      [skip; skip; skip; skip] <;>
      {
        have hpres := calcRTT_preserves_counts (r :: rest)
          (CalcLoss (CalcCounts (r :: rest)
            { Pd := r.Pd, RTTAvg := 0, RTTMin := 0, RTTMax := 0,
              Sent := 0, Lost := 0, Loss := some 0 }))
        have hcl := calcLoss_preserves_counts (CalcCounts (r :: rest)
          { Pd := r.Pd, RTTAvg := 0, RTTMin := 0, RTTMax := 0,
            Sent := 0, Lost := 0, Loss := some 0 })
        have hsentN : (CalcCounts (r :: rest)
            { Pd := r.Pd, RTTAvg := 0, RTTMin := 0, RTTMax := 0,
              Sent := 0, Lost := 0, Loss := some 0 }).Sent
            = (r :: rest).length := rfl
        have hlostN : (CalcCounts (r :: rest)
            { Pd := r.Pd, RTTAvg := 0, RTTMin := 0, RTTMax := 0,
              Sent := 0, Lost := 0, Loss := some 0 }).Lost
            = (r :: rest).countP (fun x => x.Lost) := rfl
        have hnz : (CalcCounts (r :: rest)
            { Pd := r.Pd, RTTAvg := 0, RTTMin := 0, RTTMax := 0,
              Sent := 0, Lost := 0, Loss := some 0 }).Sent ≠ 0 := by
          rw [hsentN]
          simp
        first
        | (rw [hpres.1, hcl.1, hsentN]; simp)
        | (rw [hpres.1, hcl.1, hsentN])
        | (rw [hpres.2.1, hcl.2, hlostN])
        | (rw [hpres.2.2, calcLoss_loss_of_sent_ne_zero _ hnz, hsentN,
            hlostN])
      }

/-- Witness for C2's amended theorem at a single lost-probe bucket. -/
theorem summarizeSet_loss_formula_witness :
    ∃ s, summarizeSet [⟨⟨"s", 0, "d", 0, "udp"⟩, 0, 0, true⟩] = some s ∧
      0 < s.Sent ∧
      s.Sent = [(⟨⟨"s", 0, "d", 0, "udp"⟩, 0, 0, true⟩ : Result)].length ∧
      s.Lost = [(⟨⟨"s", 0, "d", 0, "udp"⟩, 0, 0, true⟩ : Result)].countP
        (fun r => r.Lost) ∧
      s.Loss = some
        (([(⟨⟨"s", 0, "d", 0, "udp"⟩, 0, 0, true⟩ : Result)].countP
            (fun r => r.Lost) : ℚ)
          / (([(⟨⟨"s", 0, "d", 0, "udp"⟩, 0, 0, true⟩ : Result)].length : ℚ))
          * 100) :=
  summarizeSet_loss_formula [⟨⟨"s", 0, "d", 0, "udp"⟩, 0, 0, true⟩]
    (by decide)

/-- The running-minimum fold of `CalcRTT` never exceeds its initial value. -/
lemma minfold_le_init (l : List ℚ) (init : ℚ) :
    l.foldl (fun m v => if v < m then v else m) init ≤ init := by
  induction l generalizing init with
  | nil => simp
  | cons x xs ih =>
    simp only [List.foldl_cons]
    refine le_trans (ih _) ?_
    split
    · exact le_of_lt (by assumption)
    · exact le_refl _

/-- The running-minimum fold of `CalcRTT` is a lower bound of the list. -/
lemma minfold_le_mem (l : List ℚ) (init : ℚ) :
    ∀ v ∈ l, l.foldl (fun m v => if v < m then v else m) init ≤ v := by
  induction l generalizing init with
  | nil => intro v hv; cases hv
  | cons x xs ih =>
    intro v hv
    simp only [List.foldl_cons]
    rcases List.mem_cons.mp hv with rfl | hv'
    · refine le_trans (minfold_le_init xs _) ?_
      split
      · exact le_refl _
      · exact le_of_not_lt (by assumption)
    · exact ih _ v hv'

/-- The initial value bounds the running-maximum fold of `CalcRTT` below. -/
lemma init_le_maxfold (l : List ℚ) (init : ℚ) :
    init ≤ l.foldl (fun m v => if m < v then v else m) init := by
  induction l generalizing init with
  | nil => simp
  | cons x xs ih =>
    simp only [List.foldl_cons]
    refine le_trans ?_ (ih _)
    split
    · exact le_of_lt (by assumption)
    · exact le_refl _

/-- The running-maximum fold of `CalcRTT` is an upper bound of the list. -/
lemma mem_le_maxfold (l : List ℚ) (init : ℚ) :
    ∀ v ∈ l, v ≤ l.foldl (fun m v => if m < v then v else m) init := by
  induction l generalizing init with
  | nil => intro v hv; cases hv
  | cons x xs ih =>
    intro v hv
    simp only [List.foldl_cons]
    rcases List.mem_cons.mp hv with rfl | hv'
    · refine le_trans ?_ (init_le_maxfold xs _)
      split
      · exact le_refl _
      · exact le_of_not_lt (by assumption)
    · exact ih _ v hv'

/-- The accumulating fold of `CalcRTT` computes the list sum. -/
lemma addfold_eq_sum (l : List ℚ) (a : ℚ) :
    l.foldl (fun x v => x + v) a = a + l.sum := by
  induction l generalizing a with
  | nil => simp
  | cons x xs ih => simp [ih, add_assoc]

/-- C4: On a non-empty result list fed to a fresh (zero-valued) summary,
`CalcRTT` yields `RTTMin ≤ RTTAvg ≤ RTTMax` when at least one non-lost
Result is present, and leaves all three fields at 0 when every Result is
lost. -/
theorem calcRTT_min_avg_max (results : List Result) (s0 : Summary)
    (hz : s0.RTTAvg = 0 ∧ s0.RTTMin = 0 ∧ s0.RTTMax = 0)
    (hne : results ≠ []) :
    ((∃ r ∈ results, r.Lost = false) →
      (CalcRTT results s0).RTTMin ≤ (CalcRTT results s0).RTTAvg ∧
      (CalcRTT results s0).RTTAvg ≤ (CalcRTT results s0).RTTMax) ∧
    ((∀ r ∈ results, r.Lost = true) →
      (CalcRTT results s0).RTTAvg = 0 ∧ (CalcRTT results s0).RTTMin = 0 ∧
      (CalcRTT results s0).RTTMax = 0) := by
  have hlen : ¬(results.length = 0) := by
    simpa [List.length_eq_zero] using hne
  constructor
  · rintro ⟨r, hr, hrl⟩
    have hrf : r ∈ results.filter (fun r => !r.Lost) := by
      simp [List.mem_filter, hr, hrl]
    set values := (results.filter (fun r => !r.Lost)).map
      (fun r => NsToMs (r.RTT : ℚ)) with hval
    have hvne : ¬(values.length = 0) := by
      have : NsToMs (r.RTT : ℚ) ∈ values := List.mem_map_of_mem _ hrf
      intro h
      rw [List.length_eq_zero] at h
      simp [h] at this
    have hpos : (0 : ℚ) < (values.length : ℚ) := by
      have : 0 < values.length := Nat.pos_of_ne_zero hvne
      exact_mod_cast this
    have hcalc : CalcRTT results s0 =
        { s0 with
          RTTAvg := values.foldl (fun x v => x + v) 0 / (values.length : ℚ),
          RTTMin := values.foldl (fun m v => if v < m then v else m) maxFloat64,
          RTTMax := values.foldl (fun m v => if m < v then v else m) 0 } := by
      rw [CalcRTT]
      simp only [if_neg hlen, ← hval, if_neg hvne]
    rw [hcalc]
    constructor
    · show values.foldl (fun m v => if v < m then v else m) maxFloat64 ≤
        values.foldl (fun x v => x + v) 0 / (values.length : ℚ)
      rw [le_div_iff₀ hpos, addfold_eq_sum, zero_add]
      have hb : ∀ v ∈ values,
          values.foldl (fun m v => if v < m then v else m) maxFloat64 ≤ v :=
        minfold_le_mem values maxFloat64
      have := List.card_nsmul_le_sum values _ hb
      rw [nsmul_eq_mul] at this
      calc values.foldl (fun m v => if v < m then v else m) maxFloat64 *
            (values.length : ℚ)
          = (values.length : ℚ) *
            values.foldl (fun m v => if v < m then v else m) maxFloat64 := by
            ring
        _ ≤ values.sum := this
    · show values.foldl (fun x v => x + v) 0 / (values.length : ℚ) ≤
        values.foldl (fun m v => if m < v then v else m) 0
      rw [div_le_iff₀ hpos, addfold_eq_sum, zero_add]
      have hb : ∀ v ∈ values,
          v ≤ values.foldl (fun m v => if m < v then v else m) 0 :=
        mem_le_maxfold values 0
      have := List.sum_le_card_nsmul values _ hb
      rw [nsmul_eq_mul] at this
      calc values.sum
          ≤ (values.length : ℚ) *
            values.foldl (fun m v => if m < v then v else m) 0 := this
        _ = values.foldl (fun m v => if m < v then v else m) 0 *
            (values.length : ℚ) := by ring
  · intro hall
    have hfe : results.filter (fun r => !r.Lost) = [] := by
      rw [List.filter_eq_nil_iff]
      intro r hr
      simp [hall r hr]
    have : CalcRTT results s0 = s0 := by
      rw [CalcRTT]
      simp [if_neg hlen, hfe]
    rw [this]
    exact ⟨hz.1, hz.2.1, hz.2.2⟩

/-- Witness for C4: the mixed bucket of scenario S3 (RTTs 1 ms and 3 ms plus
one lost probe) satisfies `RTTMin ≤ RTTAvg ≤ RTTMax`. -/
theorem calcRTT_min_avg_max_witness :
    (CalcRTT
        [⟨⟨"s", 0, "d", 0, "udp"⟩, 1000000, 0, false⟩,
         ⟨⟨"s", 0, "d", 0, "udp"⟩, 0, 0, true⟩,
         ⟨⟨"s", 0, "d", 0, "udp"⟩, 3000000, 0, false⟩]
        ⟨⟨"s", 0, "d", 0, "udp"⟩, 0, 0, 0, 0, 0, some 0⟩).RTTMin ≤
      (CalcRTT
        [⟨⟨"s", 0, "d", 0, "udp"⟩, 1000000, 0, false⟩,
         ⟨⟨"s", 0, "d", 0, "udp"⟩, 0, 0, true⟩,
         ⟨⟨"s", 0, "d", 0, "udp"⟩, 3000000, 0, false⟩]
        ⟨⟨"s", 0, "d", 0, "udp"⟩, 0, 0, 0, 0, 0, some 0⟩).RTTAvg ∧
    (CalcRTT
        [⟨⟨"s", 0, "d", 0, "udp"⟩, 1000000, 0, false⟩,
         ⟨⟨"s", 0, "d", 0, "udp"⟩, 0, 0, true⟩,
         ⟨⟨"s", 0, "d", 0, "udp"⟩, 3000000, 0, false⟩]
        ⟨⟨"s", 0, "d", 0, "udp"⟩, 0, 0, 0, 0, 0, some 0⟩).RTTAvg ≤
      (CalcRTT
        [⟨⟨"s", 0, "d", 0, "udp"⟩, 1000000, 0, false⟩,
         ⟨⟨"s", 0, "d", 0, "udp"⟩, 0, 0, true⟩,
         ⟨⟨"s", 0, "d", 0, "udp"⟩, 3000000, 0, false⟩]
        ⟨⟨"s", 0, "d", 0, "udp"⟩, 0, 0, 0, 0, 0, some 0⟩).RTTMax :=
  (calcRTT_min_avg_max
      [⟨⟨"s", 0, "d", 0, "udp"⟩, 1000000, 0, false⟩,
       ⟨⟨"s", 0, "d", 0, "udp"⟩, 0, 0, true⟩,
       ⟨⟨"s", 0, "d", 0, "udp"⟩, 3000000, 0, false⟩]
      ⟨⟨"s", 0, "d", 0, "udp"⟩, 0, 0, 0, 0, 0, some 0⟩
      (by exact ⟨rfl, rfl, rfl⟩) (by decide)).1
    ⟨⟨⟨"s", 0, "d", 0, "udp"⟩, 1000000, 0, false⟩, by decide, rfl⟩

/-- C5: Summarizing a bucket of exactly three Results for the same (src,dst)
— RTTs 1000000 ns, one lost, and 3000000 ns — yields RTTAvg = 2.0 ms,
RTTMin = 1.0, RTTMax = 3.0, Sent = 3, Lost = 1 and Loss = 100/3
(= 33.333…). -/
theorem summarizeSet_mixed_bucket :
    summarizeSet
        [⟨⟨"1.1.1.1", 1000, "2.2.2.2", 8100, "udp"⟩, 1000000, 0, false⟩,
         ⟨⟨"1.1.1.1", 1000, "2.2.2.2", 8100, "udp"⟩, 0, 0, true⟩,
         ⟨⟨"1.1.1.1", 1000, "2.2.2.2", 8100, "udp"⟩, 3000000, 0, false⟩]
      = some ⟨⟨"1.1.1.1", 1000, "2.2.2.2", 8100, "udp"⟩,
              2, 1, 3, 3, 1, some (100 / 3)⟩ := by
  simp only [summarizeSet, CalcCounts, CalcLoss, CalcRTT, NsToMs, fdiv,
    maxFloat64, List.filter, List.map, List.foldl, List.length,
    List.countP, List.countP.go]
  norm_num

/-- Tags (tags.go) — a string-to-string mapping; carried opaquely by the
merge, modelled as an association list. -/
abbrev Tags := List (String × String)

/-- TagSet (tags.go) — maps a dst key to its Tags.  A Go map is modelled as
an association list; Go map keys are distinct, expressed as `Nodup`
hypotheses where a theorem needs it. -/
abbrev TagSet := List (String × Tags)

/-- Go map assignment `ts[k] = v`: replace the value if the key is present,
otherwise add the binding. -/
def mapAssign (ts : TagSet) (k : String) (v : Tags) : TagSet :=
  if ts.any (fun kv => kv.1 = k) then
    ts.map (fun kv => if kv.1 = k then (k, v) else kv)
  else
    ts ++ [(k, v)]

/-- Lookup in a TagSet (first binding for the key). -/
def lookupTS (ts : TagSet) (k : String) : Option Tags :=
  match ts with
  | [] => none
  | kv :: rest => if kv.1 = k then some kv.2 else lookupTS rest k

/-- Key list of a TagSet. -/
def keysTS (ts : TagSet) : List String :=
  ts.map (fun kv => kv.1)

/-- MergeUpdateTagSet (api.go:82-90, `API.MergeUpdateTagSet`) — copies every
entry of `t` into the receiver's TagSet with `ts[k] = v`, retaining existing
entries, updating where needed, and adding new ones.  Go map iteration order
is arbitrary; since a Go map's keys are distinct the fold over `t`'s bindings
is order-insensitive. -/
def MergeUpdateTagSet (ts t : TagSet) : TagSet :=
  t.foldl (fun acc kv => mapAssign acc kv.1 kv.2) ts

/-- Rewriting every binding of key `k` leaves other keys' lookups alone. -/
lemma lookupTS_mapReplace_other (ts : TagSet) (k : String) (v : Tags)
    (k' : String) (hne : k' ≠ k) :
    lookupTS (ts.map (fun kv => if kv.1 = k then (k, v) else kv)) k'
      = lookupTS ts k' := by
  induction ts with
  | nil => rfl
  | cons kv rest ih =>
    by_cases hek : kv.1 = k
    · have h1 : ¬(k = k') := fun h => hne h.symm
      have h2 : ¬(kv.1 = k') := fun h => hne (by rw [← h, hek])
      simp only [List.map_cons, if_pos hek, lookupTS, if_neg h1, if_neg h2]
      exact ih
    · by_cases hk' : kv.1 = k'
      · simp only [List.map_cons, if_neg hek, lookupTS, if_pos hk']
      · simp only [List.map_cons, if_neg hek, lookupTS, if_neg hk']
        exact ih

/-- Rewriting every binding of a present key `k` makes `k` look up the new
value. -/
lemma lookupTS_mapReplace_self (ts : TagSet) (k : String) (v : Tags)
    (h : ts.any (fun kv => kv.1 = k)) :
    lookupTS (ts.map (fun kv => if kv.1 = k then (k, v) else kv)) k
      = some v := by
  induction ts with
  | nil => simp at h
  | cons kv rest ih =>
    by_cases hek : kv.1 = k
    · simp [List.map_cons, if_pos hek, lookupTS]
    · have h' : rest.any (fun kv => kv.1 = k) := by
        simp only [List.any_cons, decide_eq_true_eq, Bool.or_eq_true] at h ⊢
        rcases h with h | h
        · exact absurd h hek
        · exact h
      simp only [List.map_cons, if_neg hek, lookupTS, if_neg hek]
      exact ih h'

/-- Appending a binding for an absent key: lookups of that key find the new
binding, lookups of other keys are unchanged. -/
lemma lookupTS_append_missing (ts : TagSet) (k : String) (v : Tags)
    (k' : String) (h : ¬ts.any (fun kv => kv.1 = k)) :
    lookupTS (ts ++ [(k, v)]) k'
      = if k' = k then some v else lookupTS ts k' := by
  induction ts with
  | nil =>
    by_cases hk : k' = k
    · simp [lookupTS, hk]
    · have : ¬(k = k') := fun hh => hk hh.symm
      simp [lookupTS, this, hk]
  | cons kv rest ih =>
    have hek : ¬(kv.1 = k) := by
      intro hh
      exact h (by simp [List.any_cons, hh])
    have h' : ¬rest.any (fun kv => kv.1 = k) := by
      intro hh
      exact h (by simp [List.any_cons, hh])
    by_cases hk' : kv.1 = k'
    · have : ¬(k' = k) := fun hh => hek (by rw [hk', hh])
      simp only [List.cons_append, lookupTS, if_pos hk', if_neg this]
    · simp only [List.cons_append, lookupTS, if_neg hk']
      exact ih h'

/-- Go map assignment, described through lookups. -/
lemma lookupTS_mapAssign (ts : TagSet) (k : String) (v : Tags) (k' : String) :
    lookupTS (mapAssign ts k v) k'
      = if k' = k then some v else lookupTS ts k' := by
  unfold mapAssign
  by_cases hin : ts.any (fun kv => kv.1 = k)
  · rw [if_pos hin]
    by_cases hk : k' = k
    · rw [if_pos hk, hk]
      exact lookupTS_mapReplace_self ts k v hin
    · rw [if_neg hk]
      exact lookupTS_mapReplace_other ts k v k' hk
  · rw [if_neg hin]
    exact lookupTS_append_missing ts k v k' hin

/-- Rewriting every binding of key `k` leaves the key list unchanged. -/
lemma keysTS_mapReplace (ts : TagSet) (k : String) (v : Tags) :
    keysTS (ts.map (fun kv => if kv.1 = k then (k, v) else kv)) = keysTS ts := by
  unfold keysTS
  rw [List.map_map]
  apply List.map_congr_left
  intro kv _
  by_cases hek : kv.1 = k
  · simp [hek]
  · simp [hek]

/-- Go map assignment adds exactly the assigned key to the key set. -/
lemma mem_keysTS_mapAssign (ts : TagSet) (k : String) (v : Tags)
    (k' : String) :
    k' ∈ keysTS (mapAssign ts k v) ↔ (k' ∈ keysTS ts ∨ k' = k) := by
  unfold mapAssign
  by_cases hin : ts.any (fun kv => kv.1 = k)
  · rw [if_pos hin, keysTS_mapReplace]
    have hkmem : k ∈ keysTS ts := by
      simp only [List.any_eq_true, decide_eq_true_eq] at hin
      obtain ⟨kw, hkw, hkwk⟩ := hin
      exact hkwk ▸ List.mem_map_of_mem _ hkw
    constructor
    · exact Or.inl
    · rintro (h | rfl)
      · exact h
      · exact hkmem
  · rw [if_neg hin]
    unfold keysTS
    simp [List.mem_map, eq_comm]

/-- A key outside a TagSet's key list looks up to `none`. -/
lemma lookupTS_eq_none_of_not_mem (ts : TagSet) (k : String)
    (h : k ∉ keysTS ts) : lookupTS ts k = none := by
  induction ts with
  | nil => rfl
  | cons kv rest ih =>
    have h1 : ¬(kv.1 = k) := by
      intro hh
      exact h (by simp [keysTS, hh])
    have h2 : k ∉ keysTS rest := by
      intro hh
      exact h (by simp [keysTS] at hh ⊢; exact Or.inr hh)
    simp only [lookupTS, if_neg h1]
    exact ih h2

/-- A key in a TagSet's key list looks up to some value. -/
lemma lookupTS_isSome_of_mem (ts : TagSet) (k : String)
    (h : k ∈ keysTS ts) : (lookupTS ts k).isSome := by
  induction ts with
  | nil => simp [keysTS] at h
  | cons kv rest ih =>
    by_cases hk : kv.1 = k
    · simp [lookupTS, hk]
    · have hmem : k ∈ keysTS rest := by
        rw [keysTS, List.map_cons, List.mem_cons] at h
        rcases h with h | h
        · exact absurd h.symm hk
        · exact h
      simp only [lookupTS, if_neg hk]
      exact ih hmem

/-- Merged lookups: a key of `B` (keys distinct, as in a Go map) gets `B`'s
value, any other key keeps `A`'s value. -/
lemma lookupTS_merge (A B : TagSet) (hB : (keysTS B).Nodup) (k : String) :
    lookupTS (MergeUpdateTagSet A B) k
      = if (lookupTS B k).isSome then lookupTS B k else lookupTS A k := by
  induction B generalizing A with
  | nil => simp [MergeUpdateTagSet, lookupTS]
  | cons kv B' ih =>
    rw [keysTS, List.map_cons, List.nodup_cons] at hB
    have hknotin : kv.1 ∉ keysTS B' := hB.1
    have hB' : (keysTS B').Nodup := hB.2
    have hstep : MergeUpdateTagSet A (kv :: B')
        = MergeUpdateTagSet (mapAssign A kv.1 kv.2) B' := rfl
    rw [hstep, ih _ hB']
    by_cases hk : kv.1 = k
    · have hBnone : lookupTS B' k = none := by
        apply lookupTS_eq_none_of_not_mem
        rw [← hk]
        exact hknotin
      simp only [lookupTS, if_pos hk, hBnone, Option.isSome_none,
        Bool.false_eq_true, if_false, Option.isSome_some, if_true]
      rw [lookupTS_mapAssign]
      simp [← hk]
    · simp only [lookupTS, if_neg hk]
      by_cases hsome : (lookupTS B' k).isSome
      · rw [if_pos hsome, if_pos hsome]
      · rw [if_neg hsome, if_neg hsome]
        rw [lookupTS_mapAssign]
        have : ¬(k = kv.1) := fun hh => hk hh.symm
        rw [if_neg this]

/-- Merged key set is the union of the inputs' key sets. -/
lemma mem_keysTS_merge (A B : TagSet) (k : String) :
    k ∈ keysTS (MergeUpdateTagSet A B)
      ↔ (k ∈ keysTS A ∨ k ∈ keysTS B) := by
  induction B generalizing A with
  | nil => simp [MergeUpdateTagSet, keysTS]
  | cons kv B' ih =>
    have hstep : MergeUpdateTagSet A (kv :: B')
        = MergeUpdateTagSet (mapAssign A kv.1 kv.2) B' := rfl
    rw [hstep, ih, mem_keysTS_mapAssign]
    simp only [keysTS, List.map_cons, List.mem_cons]
    constructor
    · rintro ((h | rfl) | h)
      · exact Or.inl h
      · exact Or.inr (Or.inl rfl)
      · exact Or.inr (Or.inr h)
    · rintro (h | (rfl | h))
      · exact Or.inl (Or.inl h)
      · exact Or.inl (Or.inr rfl)
      · exact Or.inr h

/-- C7: Merging TagSet `B` into `A` yields a TagSet whose key set is
`keys(A) ∪ keys(B)`; no key of `A` is deleted, a key present only in `A`
keeps `A`'s value, and on a conflicting key the merged value equals `B`'s. -/
theorem mergeUpdateTagSet_additive (A B : TagSet)
    (hB : (keysTS B).Nodup) :
    (∀ k, k ∈ keysTS (MergeUpdateTagSet A B)
        ↔ (k ∈ keysTS A ∨ k ∈ keysTS B)) ∧
    (∀ k, k ∈ keysTS A → k ∉ keysTS B →
        lookupTS (MergeUpdateTagSet A B) k = lookupTS A k) ∧
    (∀ k, k ∈ keysTS B →
        lookupTS (MergeUpdateTagSet A B) k = lookupTS B k) := by
  refine ⟨fun k => mem_keysTS_merge A B k, fun k _ hkB => ?_, fun k hkB => ?_⟩
  · rw [lookupTS_merge A B hB k,
      lookupTS_eq_none_of_not_mem B k hkB]
    rfl
  · rw [lookupTS_merge A B hB k, if_pos (lookupTS_isSome_of_mem B k hkB)]

/-- Witness for C7 at scenario S5: pre-state has key "example", the merged
TagSet brings key "1.2.3.4"; the merged lookup of "example" is preserved. -/
theorem mergeUpdateTagSet_additive_witness :
    lookupTS (MergeUpdateTagSet [("example", [("mytag", "myvalue")])]
        [("1.2.3.4", [("a", "b")])]) "example"
      = lookupTS [("example", [("mytag", "myvalue")])] "example" ∧
    lookupTS (MergeUpdateTagSet [("example", [("mytag", "myvalue")])]
        [("1.2.3.4", [("a", "b")])]) "1.2.3.4"
      = lookupTS [("1.2.3.4", [("a", "b")])] "1.2.3.4" :=
  ⟨(mergeUpdateTagSet_additive [("example", [("mytag", "myvalue")])]
      [("1.2.3.4", [("a", "b")])] (by decide)).2.1 "example"
      (by decide) (by decide),
   (mergeUpdateTagSet_additive [("example", [("mytag", "myvalue")])]
      [("1.2.3.4", [("a", "b")])] (by decide)).2.2 "1.2.3.4" (by decide)⟩

/-- UdpData (udp.go:12-19) — the legacy fixed-width binary probe form:
`signature[10] | tos:u8 | sent:u64 | rcvd:u64 | rtt:u64 | lost:u8`.
Bytes are naturals `< 256`, uint64 fields naturals `< 2^64`; the typing
appears as hypotheses of the round-trip theorem. -/
structure UdpData where
  Signature : List ℕ
  Tos : ℕ
  Sent : ℕ
  Rcvd : ℕ
  RTT : ℕ
  Lost : ℕ
deriving DecidableEq, Repr

/-- Little-endian fixed-width encoding of a natural into `k` bytes, as
`encoding/binary` writes a uintN. -/
def natToLE : ℕ → ℕ → List ℕ
  | 0, _ => []
  | k + 1, n => n % 256 :: natToLE k (n / 256)

/-- Little-endian byte decoding, as `encoding/binary` reads a uintN. -/
def leToNat (bs : List ℕ) : ℕ :=
  bs.foldr (fun b acc => b + 256 * acc) 0

/-- PackUdpData (udp.go:75-81) — serializes a UdpData with
`binary.Write(..., binary.LittleEndian, data)`: the fields in declaration
order, fixed width, little-endian. -/
def PackUdpData (d : UdpData) : List ℕ :=
  d.Signature ++
    d.Tos :: (natToLE 8 d.Sent ++ (natToLE 8 d.Rcvd ++ (natToLE 8 d.RTT ++ [d.Lost])))

/-- UnpackUdpData (udp.go:85-101) — parses the same fixed layout with
`binary.Read`; data shorter than the 36-byte struct is an "Invalid data
received" error, modelled as `none`.  Extra trailing bytes are ignored, as
`binary.Read` consumes only the struct's size from the buffer. -/
def UnpackUdpData (data : List ℕ) : Option UdpData :=
  if 36 ≤ data.length then
    some { Signature := data.take 10,
           Tos := (data.drop 10).headD 0,
           Sent := leToNat ((data.drop 11).take 8),
           Rcvd := leToNat ((data.drop 19).take 8),
           RTT := leToNat ((data.drop 27).take 8),
           Lost := (data.drop 35).headD 0 }
  else none

/-- A `k`-byte little-endian encoding has length `k`. -/
lemma length_natToLE (k n : ℕ) : (natToLE k n).length = k := by
  induction k generalizing n with
  | zero => rfl
  | succ k ih => simp [natToLE, ih]

/-- Decoding inverts the fixed-width little-endian encoding below `256^k`. -/
lemma leToNat_natToLE (k n : ℕ) (h : n < 256 ^ k) :
    leToNat (natToLE k n) = n := by
  induction k generalizing n with
  | zero =>
    interval_cases n
    rfl
  | succ k ih =>
    have hdiv : n / 256 < 256 ^ k := by
      rw [Nat.div_lt_iff_lt_mul (by norm_num : (0 : ℕ) < 256)]
      calc n < 256 ^ (k + 1) := h
        _ = 256 ^ k * 256 := by ring
    simp only [natToLE, leToNat, List.foldr_cons]
    have : leToNat (natToLE k (n / 256)) = n / 256 := ih _ hdiv
    rw [show (natToLE k (n / 256)).foldr (fun b acc => b + 256 * acc) 0
        = leToNat (natToLE k (n / 256)) from rfl, this]
    rw [Nat.add_comm, Nat.div_add_mod]

/-- C8: Unpacking the packed little-endian fixed-width encoding of any
UdpData value (10-byte signature, byte-sized Tos and Lost, uint64-sized
Sent, Rcvd and RTT) recovers a value equal to the original in every field,
with no error returned. -/
theorem unpack_pack_roundtrip (d : UdpData)
    (hsig : d.Signature.length = 10)
    (htos : d.Tos < 256) (hlost : d.Lost < 256)
    (hsent : d.Sent < 2 ^ 64) (hrcvd : d.Rcvd < 2 ^ 64)
    (hrtt : d.RTT < 2 ^ 64) :
    UnpackUdpData (PackUdpData d) = some d := by
  have hb : (256 : ℕ) ^ 8 = 2 ^ 64 := by norm_num
  have hlen : (PackUdpData d).length = 36 := by
    simp [PackUdpData, List.length_append, hsig, length_natToLE]
  have h10 : (PackUdpData d).drop 10
      = d.Tos :: (natToLE 8 d.Sent ++ (natToLE 8 d.Rcvd ++ (natToLE 8 d.RTT ++ [d.Lost]))) :=
    List.drop_left' hsig
  have h11 : (PackUdpData d).drop 11
      = natToLE 8 d.Sent ++ (natToLE 8 d.Rcvd ++ (natToLE 8 d.RTT ++ [d.Lost])) := by
    rw [show (11 : ℕ) = 10 + 1 from rfl, ← List.drop_drop, h10, List.drop_one]
    rfl
  have h19 : (PackUdpData d).drop 19
      = natToLE 8 d.Rcvd ++ (natToLE 8 d.RTT ++ [d.Lost]) := by
    rw [show (19 : ℕ) = 11 + 8 from rfl, ← List.drop_drop, h11,
      List.drop_left' (length_natToLE 8 d.Sent)]
  have h27 : (PackUdpData d).drop 27
      = natToLE 8 d.RTT ++ [d.Lost] := by
    rw [show (27 : ℕ) = 19 + 8 from rfl, ← List.drop_drop, h19,
      List.drop_left' (length_natToLE 8 d.Rcvd)]
  have h35 : (PackUdpData d).drop 35 = [d.Lost] := by
    rw [show (35 : ℕ) = 27 + 8 from rfl, ← List.drop_drop, h27,
      List.drop_left' (length_natToLE 8 d.RTT)]
  rw [UnpackUdpData, if_pos (le_of_eq hlen.symm)]
  rw [show (PackUdpData d).take 10 = d.Signature from List.take_left' hsig]
  rw [h10, h11, h19, h27, h35]
  simp only [List.headD_cons,
    List.take_left' (length_natToLE 8 d.Sent),
    List.take_left' (length_natToLE 8 d.Rcvd),
    List.take_left' (length_natToLE 8 d.RTT)]
  rw [leToNat_natToLE 8 d.Sent (hb ▸ hsent),
    leToNat_natToLE 8 d.Rcvd (hb ▸ hrcvd),
    leToNat_natToLE 8 d.RTT (hb ▸ hrtt)]

/-- Witness for C8 at a concrete UdpData value. -/
theorem unpack_pack_roundtrip_witness :
    UnpackUdpData (PackUdpData
        ⟨[1, 2, 3, 4, 5, 6, 7, 8, 9, 10], 96, 100000, 200000, 100000, 0⟩)
      = some ⟨[1, 2, 3, 4, 5, 6, 7, 8, 9, 10], 96, 100000, 200000, 100000, 0⟩ :=
  unpack_pack_roundtrip
    ⟨[1, 2, 3, 4, 5, 6, 7, 8, 9, 10], 96, 100000, 200000, 100000, 0⟩
    (by decide) (by decide) (by decide) (by norm_num) (by norm_num) (by norm_num)

/-- NewID (util, `NewID`) — returns the last 10 bytes of a freshly generated
UUIDv4 as a string.  The randomly generated 16-byte UUID is a parameter of
the model; strings are byte lists. -/
def NewID (fullUUID : List ℕ) : List ℕ :=
  fullUUID.drop (fullUUID.length - 10)

/-- IDToBytes (util, `IDToBytes`) — copies a string into a zeroed 10-byte
array: `copy` transfers at most 10 bytes, the rest stays zero. -/
def IDToBytes (id : List ℕ) : List ℕ :=
  id.take 10 ++ List.replicate (10 - (id.take 10).length) 0

/-- C9: For a 16-byte (128-bit) UUID, the signature generator returns exactly
10 bytes, namely the UUID's last 10 bytes, and `IDToBytes` of that string is
a 10-byte array containing exactly those bytes. -/
theorem newID_signature_bytes (u : List ℕ) (hu : u.length = 16) :
    (NewID u).length = 10 ∧ NewID u = u.drop 6 ∧
    IDToBytes (NewID u) = NewID u := by
  have h1 : NewID u = u.drop 6 := by
    unfold NewID
    rw [hu]
  have h2 : (NewID u).length = 10 := by
    rw [h1, List.length_drop, hu]
  refine ⟨h2, h1, ?_⟩
  unfold IDToBytes
  rw [List.take_of_length_le (le_of_eq h2), h2]
  simp

/-- Witness for C9 at a concrete 16-byte UUID. -/
theorem newID_signature_bytes_witness :
    (NewID [0, 1, 2, 3, 4, 5, 6, 7, 8, 9, 10, 11, 12, 13, 14, 15]).length = 10 ∧
    NewID [0, 1, 2, 3, 4, 5, 6, 7, 8, 9, 10, 11, 12, 13, 14, 15]
      = [0, 1, 2, 3, 4, 5, 6, 7, 8, 9, 10, 11, 12, 13, 14, 15].drop 6 ∧
    IDToBytes (NewID [0, 1, 2, 3, 4, 5, 6, 7, 8, 9, 10, 11, 12, 13, 14, 15])
      = NewID [0, 1, 2, 3, 4, 5, 6, 7, 8, 9, 10, 11, 12, 13, 14, 15] :=
  newID_signature_bytes [0, 1, 2, 3, 4, 5, 6, 7, 8, 9, 10, 11, 12, 13, 14, 15]
    (by decide)

/-- UDPAddr — models `net.UDPAddr` as an (IP, port) pair. -/
structure UDPAddr where
  IP : String
  Port : ℕ
deriving DecidableEq, Repr

/-- mux (portgroup.go:119-127) — forwards a UDPAddr to all channels tied to
Ports in the PortGroup: one blocking send per channel.  A channel is modelled
by its buffered contents; a send appends one element. -/
def mux (ports : List (List UDPAddr)) (addr : UDPAddr) : List (List UDPAddr) :=
  ports.map (fun c => c ++ [addr])

/-- One mux step, per channel. -/
lemma mux_getD (ports : List (List UDPAddr)) (addr : UDPAddr) (i : ℕ)
    (h : i < ports.length) :
    (mux ports addr).getD i [] = (ports.getD i []) ++ [addr] := by
  induction ports generalizing i with
  | nil => simp at h
  | cons c cs ih =>
    cases i with
    | zero => rfl
    | succ n =>
      simp only [mux, List.map_cons, List.getD_cons_succ]
      exact ih n (Nat.lt_of_succ_lt_succ h)

/-- C6: The mux forwards the arriving address to every Port's input channel
exactly once: the channel list keeps its shape, every channel receives the
exact address (appended once), and each channel's occurrence count of that
address grows by exactly one — no Port is skipped, no Port receives a
duplicate. -/
theorem mux_forwards_exactly_once (ports : List (List UDPAddr))
    (addr : UDPAddr) :
    (mux ports addr).length = ports.length ∧
    ∀ i, i < ports.length →
      (mux ports addr).getD i [] = (ports.getD i []) ++ [addr] ∧
      ((mux ports addr).getD i []).count addr
        = ((ports.getD i []).count addr) + 1 := by
  refine ⟨by simp [mux], fun i hi => ?_⟩
  refine ⟨mux_getD ports addr i hi, ?_⟩
  rw [mux_getD ports addr i hi, List.count_append]
  simp

/-- Witness for C6 at scenario S6: a PortGroup with two (empty) input
channels receives one address; each channel ends up holding exactly one copy
of that address. -/
theorem mux_forwards_exactly_once_witness :
    ((mux [[], []] ⟨"10.0.0.1", 8100⟩).getD 0 []).count ⟨"10.0.0.1", 8100⟩
      = (([] : List UDPAddr).count ⟨"10.0.0.1", 8100⟩) + 1 ∧
    ((mux [[], []] ⟨"10.0.0.1", 8100⟩).getD 1 []).count ⟨"10.0.0.1", 8100⟩
      = (([] : List UDPAddr).count ⟨"10.0.0.1", 8100⟩) + 1 :=
  ⟨((mux_forwards_exactly_once [[], []] ⟨"10.0.0.1", 8100⟩).2 0
      (by decide)).2,
   ((mux_forwards_exactly_once [[], []] ⟨"10.0.0.1", 8100⟩).2 1
      (by decide)).2⟩

/-- PortState — the observable state of one Port's probe lifecycle
(port.go: `send`, `recv`, `done`): the cache entries (signature paired with
whether the echo has already matched, i.e. `CRcvd` was set before the
`Replace(..., ExpireNow)`), the `(signature, lost)` pairs published through
the eviction callback to `cbc`, and ghost histories of inserted signatures
and matched receptions.  `stopped` records that the recv loop observed
`stop` and swapped the eviction callback for the empty function
(port.go:139-147). -/
structure PortState where
  cache : List (ℕ × Bool)
  emitted : List (ℕ × Bool)
  inserted : List ℕ
  received : List ℕ
  stopped : Bool

/-- Number of entries carrying signature `s`. -/
def keyCount (l : List (ℕ × Bool)) (s : ℕ) : ℕ :=
  l.countP (fun e => decide (e.1 = s))

/-- The Port before any traffic. -/
def initPort : PortState :=
  ⟨[], [], [], [], false⟩

/-- Modelled from the spec: the probe cache is the third-party go-cache
library (not part of this repository), specified in §4.1 — `set` inserts
with the default TTL, `replace(key, probe, ExpireNow)` marks an entry for
imminent eviction, and the single eviction callback fires exactly once for
every removed key, whether removal comes from natural TTL expiry or from
`ExpireNow`.  The Port transitions (port.go) drive it:
* `insert` — the send loop caches a fresh signature (port.go:89-101); the
  80-bit random signature is fresh (spec invariant 2), and sending stops
  once `stop` is observed;
* `recv` — the receive loop matches an echo to a cache entry, sets `CRcvd`
  and replaces it with `ExpireNow` (port.go:189-205);
* `evict` — the cache evicts an entry (TTL expiry, or the sweep after
  `ExpireNow`) and the callback `Port.done` forwards it to `cbc`
  (port.go:216-220) with `lost` exactly when the echo never matched —
  unless the callback was already swapped for the no-op on stop;
* `stop` — the recv loop observes `stop` and swaps the callback
  (port.go:139-147). -/
inductive Step : PortState → PortState → Prop
  | insert (σ : PortState) (s : ℕ)
      (hfresh : s ∉ σ.inserted) (hrun : σ.stopped = false) :
      Step σ { σ with
        cache := (s, false) :: σ.cache,
        inserted := s :: σ.inserted }
  | recv (σ : PortState) (s : ℕ) (b : Bool)
      (hmem : (s, b) ∈ σ.cache) (hrun : σ.stopped = false) :
      Step σ { σ with
        cache := σ.cache.map (fun e => if e.1 = s then (e.1, true) else e),
        received := s :: σ.received }
  | evict (σ : PortState) (s : ℕ) (b : Bool)
      (hmem : (s, b) ∈ σ.cache) :
      Step σ { σ with
        cache := σ.cache.filter (fun e => decide (¬e.1 = s)),
        emitted := if σ.stopped then σ.emitted else (s, !b) :: σ.emitted }
  | stop (σ : PortState) :
      Step σ { σ with stopped := true }

/-- States a Port can actually be in. -/
inductive Reachable : PortState → Prop
  | init : Reachable initPort
  | step {σ σ' : PortState} : Reachable σ → Step σ σ' → Reachable σ'

/-- Inductive invariant of the Port lifecycle. -/
structure Inv (σ : PortState) : Prop where
  ins_nodup : σ.inserted.Nodup
  cache_sub : ∀ e ∈ σ.cache, e.1 ∈ σ.inserted
  recv_sub : ∀ s ∈ σ.received, s ∈ σ.inserted
  cache_flag : ∀ e ∈ σ.cache, (e.2 = true ↔ e.1 ∈ σ.received)
  emit_flag : ∀ p ∈ σ.emitted, (p.2 = true ↔ p.1 ∉ σ.received)
  count_le : ∀ s, keyCount σ.emitted s + keyCount σ.cache s
      ≤ (if s ∈ σ.inserted then 1 else 0)
  count_eq : σ.stopped = false → ∀ s,
      keyCount σ.emitted s + keyCount σ.cache s
        = (if s ∈ σ.inserted then 1 else 0)

/-- The empty Port satisfies the invariant. -/
lemma inv_init : Inv initPort := by
  constructor <;> simp [initPort, keyCount]

/-- A present signature has positive cache count. -/
lemma keyCount_pos_of_mem {l : List (ℕ × Bool)} {s : ℕ} {b : Bool}
    (h : (s, b) ∈ l) : 0 < keyCount l s := by
  unfold keyCount
  rw [List.countP_pos_iff]
  exact ⟨(s, b), h, by simp⟩

/-- A zero key count means no entry carries the signature. -/
lemma not_mem_of_keyCount_zero {l : List (ℕ × Bool)} {s : ℕ}
    (h : keyCount l s = 0) : ∀ b, (s, b) ∉ l := by
  intro b hmem
  unfold keyCount at h
  rw [List.countP_eq_zero] at h
  exact absurd (by simp : decide (((s, b) : ℕ × Bool).1 = s) = true) (h _ hmem)

/-- Marking a received signature preserves all per-key counts. -/
lemma keyCount_markRecv (l : List (ℕ × Bool)) (s t : ℕ) :
    keyCount (l.map (fun e => if e.1 = s then (e.1, true) else e)) t
      = keyCount l t := by
  unfold keyCount
  rw [List.countP_map]
  apply List.countP_congr
  intro e _
  by_cases hh : e.1 = s <;> simp [hh]

/-- Removing a key zeroes its count. -/
lemma keyCount_filter_self (l : List (ℕ × Bool)) (s : ℕ) :
    keyCount (l.filter (fun e => decide (¬e.1 = s))) s = 0 := by
  unfold keyCount
  rw [List.countP_filter, List.countP_eq_zero]
  intro e _
  by_cases hh : e.1 = s <;> simp [hh]

/-- Removing one key leaves the other keys' counts alone. -/
lemma keyCount_filter_other (l : List (ℕ × Bool)) (s t : ℕ) (hne : t ≠ s) :
    keyCount (l.filter (fun e => decide (¬e.1 = s))) t = keyCount l t := by
  unfold keyCount
  rw [List.countP_filter]
  apply List.countP_congr
  intro e _
  by_cases hh : e.1 = t
  · have hns : ¬e.1 = s := fun hc => hne (by rw [← hh, hc])
    simp [hh, hns, hne]
  · simp [hh]

/-- Consing an entry with the same key adds one to its count. -/
lemma keyCount_cons_self (l : List (ℕ × Bool)) (s : ℕ) (b : Bool) :
    keyCount ((s, b) :: l) s = keyCount l s + 1 := by
  unfold keyCount
  rw [List.countP_cons]
  simp

/-- Consing an entry with another key leaves a count alone. -/
lemma keyCount_cons_other (l : List (ℕ × Bool)) (s t : ℕ) (b : Bool)
    (hne : t ≠ s) :
    keyCount ((s, b) :: l) t = keyCount l t := by
  unfold keyCount
  rw [List.countP_cons]
  have hns : ¬(((s, b) : ℕ × Bool).1 = t) := fun hc => hne hc.symm
  simp [hns]

/-- Every Port step preserves the invariant. -/
lemma inv_step {σ σ' : PortState} (h : Inv σ) (hstep : Step σ σ') : Inv σ' := by
  cases hstep with
  | insert s hfresh hrun =>
    have hsnr : s ∉ σ.received := fun hr => hfresh (h.recv_sub s hr)
    refine ⟨List.nodup_cons.mpr ⟨hfresh, h.ins_nodup⟩, ?_, ?_, ?_, ?_, ?_, ?_⟩
    · intro e he
      rcases List.mem_cons.mp he with rfl | he'
      · exact List.mem_cons_self _ _
      · exact List.mem_cons_of_mem _ (h.cache_sub e he')
    · intro t ht
      exact List.mem_cons_of_mem _ (h.recv_sub t ht)
    · intro e he
      rcases List.mem_cons.mp he with rfl | he'
      · exact iff_of_false (by simp) hsnr
      · exact h.cache_flag e he'
    · exact h.emit_flag
    · intro t
      show keyCount σ.emitted t + keyCount ((s, false) :: σ.cache) t
        ≤ if t ∈ s :: σ.inserted then 1 else 0
      by_cases hts : t = s
      · subst hts
        have h0 := h.count_le t
        rw [if_neg hfresh] at h0
        rw [keyCount_cons_self, if_pos (List.mem_cons_self _ _)]
        omega
      · have hmm : (t ∈ s :: σ.inserted) ↔ t ∈ σ.inserted := by
          rw [List.mem_cons]
          exact or_iff_right hts
        rw [keyCount_cons_other _ _ _ _ hts, if_congr hmm rfl rfl]
        exact h.count_le t
    · intro _ t
      show keyCount σ.emitted t + keyCount ((s, false) :: σ.cache) t
        = if t ∈ s :: σ.inserted then 1 else 0
      by_cases hts : t = s
      · subst hts
        have h0 := h.count_eq hrun t
        rw [if_neg hfresh] at h0
        rw [keyCount_cons_self, if_pos (List.mem_cons_self _ _)]
        omega
      · have hmm : (t ∈ s :: σ.inserted) ↔ t ∈ σ.inserted := by
          rw [List.mem_cons]
          exact or_iff_right hts
        rw [keyCount_cons_other _ _ _ _ hts, if_congr hmm rfl rfl]
        exact h.count_eq hrun t
  | recv s b hmem hrun =>
    have hsins : s ∈ σ.inserted := h.cache_sub (s, b) hmem
    have hcpos : 0 < keyCount σ.cache s := keyCount_pos_of_mem hmem
    have hez : keyCount σ.emitted s = 0 := by
      have := h.count_eq hrun s
      rw [if_pos hsins] at this
      omega
    refine ⟨h.ins_nodup, ?_, ?_, ?_, ?_, ?_, ?_⟩
    · intro e' he'
      obtain ⟨e, he, rfl⟩ := List.mem_map.mp he'
      have hk : (if e.1 = s then (e.1, true) else e).1 = e.1 := by
        by_cases hh : e.1 = s <;> simp [hh]
      rw [hk]
      exact h.cache_sub e he
    · intro t ht
      rcases List.mem_cons.mp ht with rfl | ht'
      · exact hsins
      · exact h.recv_sub t ht'
    · intro e' he'
      obtain ⟨e, he, rfl⟩ := List.mem_map.mp he'
      by_cases hh : e.1 = s
      · have hgoal : ((if e.1 = s then (e.1, true) else e) : ℕ × Bool)
            = (e.1, true) := if_pos hh
        rw [hgoal]
        exact iff_of_true rfl (by rw [hh]; exact List.mem_cons_self _ _)
      · have hgoal : ((if e.1 = s then (e.1, true) else e) : ℕ × Bool) = e :=
          if_neg hh
        rw [hgoal, h.cache_flag e he, List.mem_cons]
        exact (or_iff_right hh).symm
    · intro p hp
      have hps : ¬(p.1 = s) := by
        intro hc
        have hnm := not_mem_of_keyCount_zero hez p.2
        rw [← hc] at hnm
        exact hnm hp
      rw [h.emit_flag p hp, List.mem_cons]
      constructor
      · intro hn hcon
        rcases hcon with hcon | hcon
        · exact hps hcon
        · exact hn hcon
      · intro hn hcon
        exact hn (Or.inr hcon)
    · intro t
      show keyCount σ.emitted t +
          keyCount (σ.cache.map fun e => if e.1 = s then (e.1, true) else e) t
        ≤ if t ∈ σ.inserted then 1 else 0
      rw [keyCount_markRecv]
      exact h.count_le t
    · intro _ t
      show keyCount σ.emitted t +
          keyCount (σ.cache.map fun e => if e.1 = s then (e.1, true) else e) t
        = if t ∈ σ.inserted then 1 else 0
      rw [keyCount_markRecv]
      exact h.count_eq hrun t
  | evict s b hmem =>
    have hsins : s ∈ σ.inserted := h.cache_sub (s, b) hmem
    have hcpos : 0 < keyCount σ.cache s := keyCount_pos_of_mem hmem
    have hbound := h.count_le s
    rw [if_pos hsins] at hbound
    have hez : keyCount σ.emitted s = 0 := by omega
    refine ⟨h.ins_nodup, ?_, h.recv_sub, ?_, ?_, ?_, ?_⟩
    · intro e he
      exact h.cache_sub e (List.mem_filter.mp he).1
    · intro e he
      exact h.cache_flag e (List.mem_filter.mp he).1
    · by_cases hst : σ.stopped
      · rw [if_pos hst]
        exact h.emit_flag
      · rw [if_neg hst]
        intro p hp
        rcases List.mem_cons.mp hp with rfl | hp'
        · have hflag := h.cache_flag (s, b) hmem
          cases b with
          | false =>
            refine iff_of_true rfl ?_
            intro hr
            exact absurd (hflag.mpr hr) (by simp)
          | true =>
            refine iff_of_false (by simp) ?_
            intro hnr
            exact hnr (hflag.mp rfl)
        · exact h.emit_flag p hp'
    · intro t
      show keyCount (if σ.stopped then σ.emitted else (s, !b) :: σ.emitted) t +
          keyCount (σ.cache.filter (fun e => decide (¬e.1 = s))) t
        ≤ if t ∈ σ.inserted then 1 else 0
      by_cases hts : t = s
      · subst hts
        rw [keyCount_filter_self, if_pos hsins]
        by_cases hst : σ.stopped
        · rw [if_pos hst]
          omega
        · rw [if_neg hst, keyCount_cons_self]
          omega
      · rw [keyCount_filter_other σ.cache s t hts]
        by_cases hst : σ.stopped
        · rw [if_pos hst]
          exact h.count_le t
        · rw [if_neg hst, keyCount_cons_other _ _ _ _ hts]
          exact h.count_le t
    · intro hst' t
      show keyCount (if σ.stopped then σ.emitted else (s, !b) :: σ.emitted) t +
          keyCount (σ.cache.filter (fun e => decide (¬e.1 = s))) t
        = if t ∈ σ.inserted then 1 else 0
      have hst : σ.stopped = false := hst'
      have hstn : ¬(σ.stopped = true) := by
        rw [hst]
        exact Bool.false_ne_true
      by_cases hts : t = s
      · subst hts
        have heq := h.count_eq hst t
        rw [if_pos hsins] at heq
        rw [keyCount_filter_self, if_pos hsins, if_neg hstn,
          keyCount_cons_self]
        omega
      · rw [keyCount_filter_other σ.cache s t hts, if_neg hstn,
          keyCount_cons_other _ _ _ _ hts]
        exact h.count_eq hst t
  | stop =>
    refine ⟨h.ins_nodup, h.cache_sub, h.recv_sub, h.cache_flag, h.emit_flag,
      h.count_le, ?_⟩
    intro hst
    cases hst

/-- Every reachable Port state satisfies the invariant. -/
lemma inv_of_reachable {σ : PortState} (h : Reachable σ) : Inv σ := by
  induction h with
  | init => exact inv_init
  | step _ hstep ih => exact inv_step ih hstep

/-- C1: In any reachable Port state whose cache has fully drained (every
entry received or TTL-expired), each signature ever inserted has been
emitted exactly once when `stop` was never observed, and at most once in
general; every emission for it carries `lost = true` exactly when the echo
never matched (and `lost = false` when it was received and matched). -/
theorem port_probe_exactly_one_result (σ : PortState) (hσ : Reachable σ)
    (hdrained : σ.cache = []) (s : ℕ) (hs : s ∈ σ.inserted) :
    (σ.stopped = false → keyCount σ.emitted s = 1) ∧
    keyCount σ.emitted s ≤ 1 ∧
    (∀ l, (s, l) ∈ σ.emitted → (l = true ↔ s ∉ σ.received)) := by
  have hinv := inv_of_reachable hσ
  have hcz : keyCount σ.cache s = 0 := by
    rw [hdrained]
    rfl
  refine ⟨?_, ?_, ?_⟩
  · intro hrun
    have := hinv.count_eq hrun s
    rw [if_pos hs, hcz] at this
    omega
  · have := hinv.count_le s
    rw [hcz] at this
    by_cases hsi : s ∈ σ.inserted
    · rw [if_pos hsi] at this
      omega
    · exact absurd hs hsi
  · intro l hl
    exact hinv.emit_flag (s, l) hl

/-- A complete three-step run of one probe: inserted, received, evicted. -/
def portRunExample : PortState :=
  ⟨[], [(0, false)], [0], [0], false⟩

/-- Witness for C1: the concrete run insert–receive–evict of signature 0
ends drained with exactly one emission, marked `lost = false`. -/
theorem port_probe_exactly_one_result_witness :
    ((portRunExample.stopped = false → keyCount portRunExample.emitted 0 = 1) ∧
      keyCount portRunExample.emitted 0 ≤ 1 ∧
      (∀ l, (0, l) ∈ portRunExample.emitted →
        (l = true ↔ 0 ∉ portRunExample.received))) :=
  port_probe_exactly_one_result portRunExample
    (Reachable.step
      (Reachable.step
        (Reachable.step Reachable.init
          (Step.insert initPort 0 (by decide) rfl))
        (Step.recv _ 0 false (by decide) rfl))
      (Step.evict _ 0 true (by decide)))
    rfl 0 (by decide)

end Llama
